import Mathlib

set_option maxRecDepth 100000

/-!
Verification of the identifier / access-mode algebra, account lifecycle,
user cache and video-call state machine of the messaging server.

Machine integers are modelled as `Nat` (with explicit `% 2^w` where overflow
matters), Go strings as `List Char`, Go maps as functions into `Option`,
fallible Go functions as `Option`/`Except`, and a Go `panic` as the `none`
result of an `Option`-valued step function.
-/

/-! ### URL-safe base64 codec (encoding/base64 URLEncoding), as used by Uid -/

/-- The URL-safe base64 alphabet used by `base64.URLEncoding`. -/
def b64alphabet : List Char :=
  ['A','B','C','D','E','F','G','H','I','J','K','L','M','N','O','P',
   'Q','R','S','T','U','V','W','X','Y','Z',
   'a','b','c','d','e','f','g','h','i','j','k','l','m','n','o','p',
   'q','r','s','t','u','v','w','x','y','z',
   '0','1','2','3','4','5','6','7','8','9','-','_']

/-- Character for a sextet value. -/
def b64c (n : Nat) : Char := b64alphabet.getD n 'A'

/-- Sextet value of a character, `none` for a character outside the alphabet
(this is the error case of the Go decoder). -/
def b64v (c : Char) : Option Nat := b64alphabet.findIdx? (fun x => x = c)

/-- Base64 encoding of a byte list into sextet values, padding characters
dropped (Go encodes with `=` padding; the callers in the source slice the
padding off, so we produce the unpadded sextet list directly). -/
def b64encodeBytes : List Nat → List Nat
  | b0 :: b1 :: b2 :: rest =>
    b0 / 4 :: (b0 % 4 * 16 + b1 / 16) :: (b1 % 16 * 4 + b2 / 64) :: b2 % 64 ::
      b64encodeBytes rest
  | [b0, b1] => [b0 / 4, b0 % 4 * 16 + b1 / 16, b1 % 16 * 4]
  | [b0] => [b0 / 4, b0 % 4 * 16]
  | [] => []

/-- Base64 decoding of an unpadded sextet list back into bytes. A trailing
group of three sextets yields two bytes and a trailing group of two yields
one byte, exactly as the Go decoder treats `xxx=` and `xx==` groups (the
non-strict decoder ignores leftover trailing bits). -/
def b64decodeSextets : List Nat → List Nat
  | s0 :: s1 :: s2 :: s3 :: rest =>
    (s0 * 4 + s1 / 16) :: (s1 % 16 * 16 + s2 / 4) :: (s2 % 4 * 64 + s3) ::
      b64decodeSextets rest
  | [s0, s1, s2] => [s0 * 4 + s1 / 16, s1 % 16 * 16 + s2 / 4]
  | [s0, s1] => [s0 * 4 + s1 / 16]
  | _ => []

/-! ### Uid codec (Uid.MarshalText / UnmarshalText / P2PName / ParseP2P) -/

/-- Little-endian bytes of a 64-bit value (binary.LittleEndian.PutUint64). -/
def uidBytes (u : Nat) : List Nat :=
  [u % 256, u / 256 % 256, u / 65536 % 256, u / 16777216 % 256,
   u / 4294967296 % 256, u / 1099511627776 % 256,
   u / 281474976710656 % 256, u / 72057594037927936 % 256]

/-- Read a 64-bit value from the first eight bytes, little-endian
(binary.LittleEndian.Uint64). -/
def leUint64 : List Nat → Nat
  | b0 :: b1 :: b2 :: b3 :: b4 :: b5 :: b6 :: b7 :: _ =>
    b0 + 256 * b1 + 65536 * b2 + 16777216 * b3 + 4294967296 * b4 +
      1099511627776 * b5 + 281474976710656 * b6 + 72057594037927936 * b7
  | _ => 0

/-- Model of `Uid.MarshalText`: the zero Uid encodes to the empty string,
any other value to the first eleven characters of the base64 encoding of
its eight little-endian bytes. -/
def uidMarshalText (u : Nat) : List Char :=
  if u = 0 then [] else (b64encodeBytes (uidBytes u)).map b64c

/-- Model of `Uid.String`, which returns `MarshalText` output as a string. -/
def uidString (u : Nat) : List Char := uidMarshalText u

/-- Model of `Uid.UnmarshalText`: reject unless the input is exactly eleven
characters; decode (after implicit `=`-padding) and read the eight bytes as
a little-endian 64-bit value. `none` is the error return. -/
def uidUnmarshalText (s : List Char) : Option Nat :=
  if s.length = 11 then
    match s.mapM b64v with
    | some sextets => some (leUint64 (b64decodeSextets sextets))
    | none => none
  else none

/-- Model of `ParseUid`: on any decoding error the Uid stays at its zero
initial value. -/
def parseUid (s : List Char) : Nat := (uidUnmarshalText s).getD 0

/-- Model of `Uid.PrefixId`: empty string for the zero Uid, otherwise the
prefix followed by the textual form. -/
def prefixId (pre : List Char) (u : Nat) : List Char :=
  if u = 0 then [] else pre ++ uidString u

/-- Model of `Uid.UserId` (prefix "usr"). -/
def userId (u : Nat) : List Char := prefixId ['u', 's', 'r'] u

/-- Model of `Uid.FndName` (prefix "fnd"). -/
def fndName (u : Nat) : List Char := prefixId ['f', 'n', 'd'] u

/-- Model of `Uid.P2PName`: for two distinct non-zero Uids, "p2p" followed by
the 22-character unpadded base64 encoding of the 16 bytes of the two ids,
smaller id first; empty string when either id is zero or the ids coincide. -/
def p2pName (a b : Nat) : List Char :=
  if a ≠ 0 ∧ b ≠ 0 then
    if a < b then
      'p' :: '2' :: 'p' :: (b64encodeBytes (uidBytes a ++ uidBytes b)).map b64c
    else if b < a then
      'p' :: '2' :: 'p' :: (b64encodeBytes (uidBytes b ++ uidBytes a)).map b64c
    else []
  else []

/-- Model of `ParseP2P`: require the "p2p" prefix and a 22-character
remainder, decode it to 16 bytes and read the two Uids. `none` is the
error return. -/
def parseP2P (s : List Char) : Option (Nat × Nat) :=
  match s with
  | 'p' :: '2' :: 'p' :: rest =>
    if rest.length = 22 then
      match rest.mapM b64v with
      | some sextets =>
        some (leUint64 (b64decodeSextets sextets),
              leUint64 ((b64decodeSextets sextets).drop 8))
      | none => none
    else none
  | _ => none

/-! ### AccessMode: the 8-bit access bitfield and its string codec -/

/-- Sentinel from the source: `ModeUnset`, a non-zero value outside the
eight mode bits. -/
def modeUnset : Nat := 256

/-- Sentinel from the source: `ModeInvalid`. -/
def modeInvalid : Nat := 1048576

/-- Go bit-clear `o &^ n` (AND NOT), written with the accelerated bitwise
primitives: bit i of `a &&& (a ^^^ b)` is `aᵢ ∧ ¬bᵢ`. -/
def andNot (a b : Nat) : Nat := a &&& (a ^^^ b)

/-- The mode letters in canonical order, as in the source's `modes` array. -/
def modeChars : List Char := ['J', 'R', 'W', 'P', 'A', 'S', 'D', 'O']

/-- Model of `AccessMode.MarshalText`: "N" for the zero mode, an error for
`ModeInvalid`, otherwise one letter per set bit among the low eight bits. -/
def accessMarshalText (m : Nat) : Option (List Char) :=
  if m = 0 then some ['N']
  else if m = modeInvalid then none
  else some
    ((if m &&& 1 ≠ 0 then ['J'] else []) ++
     (if m &&& 2 ≠ 0 then ['R'] else []) ++
     (if m &&& 4 ≠ 0 then ['W'] else []) ++
     (if m &&& 8 ≠ 0 then ['P'] else []) ++
     (if m &&& 16 ≠ 0 then ['A'] else []) ++
     (if m &&& 32 ≠ 0 then ['S'] else []) ++
     (if m &&& 64 ≠ 0 then ['D'] else []) ++
     (if m &&& 128 ≠ 0 then ['O'] else []))

/-- Model of `AccessMode.String`: the empty string when `MarshalText`
errors, its output otherwise. -/
def accessString (m : Nat) : List Char := (accessMarshalText m).getD []

/-- Bit value of a mode letter (either case); `none` for 'N'/'n' and for
characters outside the mode alphabet. -/
def letterBit (c : Char) : Option Nat :=
  if c = 'J' ∨ c = 'j' then some 1
  else if c = 'R' ∨ c = 'r' then some 2
  else if c = 'W' ∨ c = 'w' then some 4
  else if c = 'A' ∨ c = 'a' then some 16
  else if c = 'S' ∨ c = 's' then some 32
  else if c = 'D' ∨ c = 'd' then some 64
  else if c = 'P' ∨ c = 'p' then some 8
  else if c = 'O' ∨ c = 'o' then some 128
  else none

/-- Loop of `AccessMode.UnmarshalText`: accumulate letter bits starting from
the `ModeUnset` sentinel; 'N'/'n' clears the accumulator and scanning
continues (the `break` in the source only leaves the `switch`); any other
non-letter character is an error (`none`). -/
def unmarshalLoop (m0 : Nat) : List Char → Option Nat
  | [] => some m0
  | c :: rest =>
    match letterBit c with
    | some b => unmarshalLoop (m0 ||| b) rest
    | none => if c = 'N' ∨ c = 'n' then unmarshalLoop 0 rest else none

/-- Model of `AccessMode.UnmarshalText` with receiver value `cur`: `none`
is the error return (the receiver is left untouched); otherwise the receiver
is assigned the accumulator unless it still equals the `ModeUnset`
sentinel, in which case it keeps its old value. -/
def accessUnmarshalText (cur : Nat) (s : List Char) : Option Nat :=
  match unmarshalLoop modeUnset s with
  | none => none
  | some m0 => some (if m0 ≠ modeUnset then m0 else cur)

/-- The characters `AccessMode.UnmarshalText` accepts. -/
def validModeChars : List Char :=
  ['J', 'R', 'W', 'P', 'A', 'S', 'D', 'O', 'N',
   'j', 'r', 'w', 'p', 'a', 's', 'd', 'o', 'n']

/-- Model of `AccessMode.Delta` (`old.Delta(new)`): letters of the bits
added in `new` prefixed with '+', then letters of the bits removed from
`old` prefixed with '-'; empty when the modes are equal. -/
def accessDelta (o n : Nat) : List Char :=
  (if andNot n o > 0 then
    (if accessString (andNot n o) ≠ [] then '+' :: accessString (andNot n o)
     else accessString (andNot n o))
   else []) ++
  (if andNot o n > 0 then
    (if accessString (andNot o n) ≠ [] then '-' :: accessString (andNot o n)
     else accessString (andNot o n))
   else [])

/-- OR of the letter bits of a string, used to state what a scanned letter
sequence denotes. -/
def bitsOf : List Char → Nat
  | [] => 0
  | c :: rest => (letterBit c).getD 0 ||| bitsOf rest

/-- Modelled from the spec: the repository has no delta-application
function (the spec's `apply_delta`), so we model one from the spec's words:
a delta of the form `+XYZ-ABC` lists added and removed letters, and applying
it grants every letter scanned after a '+' and revokes every letter scanned
after a '-'. -/
def deltaApplyLoop (m : Nat) (adding : Bool) : List Char → Nat
  | [] => m
  | c :: rest =>
    if c = '+' then deltaApplyLoop m true rest
    else if c = '-' then deltaApplyLoop m false rest
    else
      match letterBit c with
      | some b => deltaApplyLoop (if adding then m ||| b else andNot m b) adding rest
      | none => deltaApplyLoop m adding rest

/-- Modelled from the spec: apply a textual access delta to a mode,
starting in the granting state. -/
def deltaApply (m : Nat) (s : List Char) : Nat := deltaApplyLoop m true s

/-! ### User cache: usersCache and the userUpdater goroutine -/

/-- An entry of the in-memory user cache: unread count (−1 means "not
loaded") and the number of active topics referencing the user. -/
structure UserCacheEntry where
  unread : Int
  topics : Nat
deriving DecidableEq

/-- The user cache map (Go map uid→entry; `none` is an absent key). -/
abbrev UserCache := Nat → Option UserCacheEntry

/-- Go map assignment `m[k] = v`. -/
def cacheInsert (m : UserCache) (k : Nat) (v : UserCacheEntry) : UserCache :=
  fun x => if x = k then some v else m x

/-- Go map deletion `delete(m, k)`. -/
def cacheErase (m : UserCache) (k : Nat) : UserCache :=
  fun x => if x = k then none else m x

/-- Model of the closure `unreadUpdater` inside `userUpdater`: panics
(`none`) when the user is not cached; when the cached unread is negative it
fetches the count (`getUnread`; on a fetch error it returns −1 leaving the
cache unchanged) and stores the fetched value; otherwise it applies the
update (`inc` adds `val`, else sets `val`). Returns the updated cache and
the count the Go closure returns. -/
def unreadUpdater (getUnread : Nat → Option Int) (cache : UserCache)
    (uid : Nat) (val : Int) (inc : Bool) : Option (UserCache × Int) :=
  match cache uid with
  | none => none
  | some uce =>
    if uce.unread < 0 then
      match getUnread uid with
      | none => some (cache, -1)
      | some count =>
        some (cacheInsert cache uid { unread := count, topics := uce.topics },
          count)
    else
      if inc then
        some (cacheInsert cache uid
          { unread := uce.unread + val, topics := uce.topics },
          uce.unread + val)
      else
        some (cacheInsert cache uid { unread := val, topics := uce.topics },
          val)

/-- Model of one uid's processing in the `upd.uidList` branch of
`userUpdater`: registration (add) creates a missing entry with unread −1
and topic count 1, or increments an existing count; unregistration
decrements the count, removing the entry when the count was not above 1;
unregistering an uncached user panics (`none`). -/
def registerUserCache (cache : UserCache) (uid : Nat) (add : Bool) :
    Option UserCache :=
  match cache uid, add with
  | none, true =>
    some (cacheInsert cache uid { unread := -1, topics := 1 })
  | some uce, true =>
    some (cacheInsert cache uid
      { unread := uce.unread, topics := uce.topics + 1 })
  | some uce, false =>
    if uce.topics > 1 then
      some (cacheInsert cache uid
        { unread := uce.unread, topics := uce.topics - 1 })
    else
      some (cacheErase cache uid)
  | none, false => none

/-- Membership processing over the whole `uidList`. -/
def registerAll : UserCache → List Nat → Bool → Option UserCache
  | cache, [], _ => some cache
  | cache, uid :: rest, add =>
    match registerUserCache cache uid add with
    | none => none
    | some cache2 => registerAll cache2 rest add

/-- Push-receipt processing: a +1 unread delta for every target uid. -/
def pushUpdateAll (getUnread : Nat → Option Int) :
    UserCache → List Nat → Option UserCache
  | cache, [] => some cache
  | cache, uid :: rest =>
    match unreadUpdater getUnread cache uid 1 true with
    | none => none
    | some p => pushUpdateAll getUnread p.1 rest

/-- Model of the `userUpdate` message: a single uid with an unread value,
a uid list with the membership flag `inc`, or a push receipt listing its
target uids. -/
structure UserUpdateMsg where
  uid : Nat
  uidList : List Nat
  unread : Int
  inc : Bool
  pushRcpt : Option (List Nat)

/-- Model of one iteration of the `userUpdater` loop body: a push receipt
is enriched by applying a +1 unread delta per target, a non-empty uid list
is processed as topic membership, otherwise the single-uid unread update
runs. `none` is a panic. -/
def userUpdaterStep (getUnread : Nat → Option Int) (cache : UserCache)
    (upd : UserUpdateMsg) : Option UserCache :=
  match upd.pushRcpt with
  | some targets => pushUpdateAll getUnread cache targets
  | none =>
    if upd.uidList.length > 0 then
      registerAll cache upd.uidList upd.inc
    else
      match unreadUpdater getUnread cache upd.uid upd.unread upd.inc with
      | none => none
      | some p => some p.1

/-- The cache invariant: every present entry has a positive topic count
(absent users implicitly have count zero), i.e. topics(u) > 0 ⇔ entry
present. -/
def cacheInv (cache : UserCache) : Prop :=
  ∀ u e, cache u = some e → 0 < e.topics

/-! ### Account creation (replyCreateUser) and its compensating delete -/

/-- The closed store error set of the persistence contract. -/
inductive StoreErr where
  | notFound
  | duplicate
  | credentials
  | policy
  | malformed
  | unsupported
  | internal
deriving DecidableEq

/-- The replies `replyCreateUser` can queue. `decodeStoreError` stands for
the reply produced by the repository's `decodeStoreError` helper (defined
outside the given sources), carrying the store error it decodes. -/
inductive CreateReply where
  | errAlreadyAuthenticated
  | errMalformed
  | errPermissionDenied
  | errUnknown
  | decodeStoreError (e : StoreErr)
  | loginReply
  | noErrCreated
deriving DecidableEq

/-- Inputs of one `replyCreateUser` call together with the outcome each
collaborator (authenticator, validators, store) returns when reached, in
the source's order. -/
structure CreateEnv where
  loginOnCreate : Bool
  sessionAuthenticated : Bool
  schemeKnown : Bool
  uniqueErr : Option StoreErr
  hasRestrictedTags : Bool
  precheckErr : Option StoreErr
  createErr : Option StoreErr
  addRecordErr : Option StoreErr
  requiredCreds : Nat
  credsCount : Nat
  addCredsErr : Option StoreErr
deriving DecidableEq

/-- Outcome of a `replyCreateUser` call: whether `Users.Create` succeeded,
whether the compensating `Users.Delete(uid, false)` ran, whether a user row
remains in the store on return, the queued reply, and whether the call
succeeded. -/
structure CreateResult where
  persisted : Bool
  compensated : Bool
  userRowRemains : Bool
  reply : CreateReply
  ok : Bool
deriving DecidableEq

/-- Model of `replyCreateUser`, following the source's control flow step by
step; the store is abstracted to the row-exists bit. -/
def replyCreateUser (env : CreateEnv) : CreateResult :=
  if env.loginOnCreate ∧ env.sessionAuthenticated then
    { persisted := false, compensated := false, userRowRemains := false,
      reply := CreateReply.errAlreadyAuthenticated, ok := false }
  else if ¬ env.schemeKnown then
    { persisted := false, compensated := false, userRowRemains := false,
      reply := CreateReply.errMalformed, ok := false }
  else match env.uniqueErr with
  | some e =>
    { persisted := false, compensated := false, userRowRemains := false,
      reply := CreateReply.decodeStoreError e, ok := false }
  | none =>
  if env.hasRestrictedTags then
    { persisted := false, compensated := false, userRowRemains := false,
      reply := CreateReply.errPermissionDenied, ok := false }
  else match env.precheckErr with
  | some e =>
    { persisted := false, compensated := false, userRowRemains := false,
      reply := CreateReply.decodeStoreError e, ok := false }
  | none =>
  match env.createErr with
  | some _ =>
    { persisted := false, compensated := false, userRowRemains := false,
      reply := CreateReply.errUnknown, ok := false }
  | none =>
  match env.addRecordErr with
  | some e =>
    { persisted := true, compensated := true, userRowRemains := false,
      reply := CreateReply.decodeStoreError e, ok := false }
  | none =>
  if env.credsCount < env.requiredCreds then
    { persisted := true, compensated := true, userRowRemains := false,
      reply := CreateReply.decodeStoreError StoreErr.policy, ok := false }
  else match env.addCredsErr with
  | some e =>
    { persisted := true, compensated := true, userRowRemains := false,
      reply := CreateReply.decodeStoreError e, ok := false }
  | none =>
  if env.loginOnCreate then
    { persisted := true, compensated := false, userRowRemains := true,
      reply := CreateReply.loginReply, ok := true }
  else
    { persisted := true, compensated := false, userRowRemains := true,
      reply := CreateReply.noErrCreated, ok := true }

/-! ### The tel credential validator's Check -/

/-- A stored credential as the tel validator consumes it. -/
structure TelCred where
  value : List Char
  resp : List Char
  retries : Nat
deriving DecidableEq

/-- Configuration of the tel validator (as set by its Init). -/
structure TelValidator where
  debugResponse : List Char
  maxRetries : Nat
deriving DecidableEq

/-- Store responses the tel Check consults for the checked user: the
(credential, error) pair of GetActiveCred and the error of ConfirmCred. -/
structure TelStore where
  activeCredErr : Option StoreErr
  activeCred : Option TelCred
  confirmCredErr : Option StoreErr
deriving DecidableEq

/-- Model of the tel validator's `Check`: the (value, error) pair the Go
method returns. FailCred's effect is not tracked (the source ignores its
error and returns ErrCredentials regardless). -/
def telCheck (v : TelValidator) (st : TelStore) (resp : List Char) :
    List Char × Option StoreErr :=
  match st.activeCredErr with
  | some e => ([], some e)
  | none =>
    match st.activeCred with
    | none => ([], some StoreErr.notFound)
    | some cred =>
      if cred.retries > v.maxRetries then ([], some StoreErr.policy)
      else if resp = [] then ([], some StoreErr.credentials)
      else if cred.resp = resp ∨ v.debugResponse = resp then
        (cred.value, st.confirmCredErr)
      else ([], some StoreErr.credentials)

/-! ### updateCreds and its nil method-count map -/

/-- A stored or supplied credential as `updateCreds` sees it. -/
structure CredInfo where
  method : List Char
  response : List Char
deriving DecidableEq

/-- Outcome of a validator `Check` call for one supplied credential:
a returned value (empty means the credential was deleted), the soft
ErrCredentials failure, or a hard error. -/
inductive CheckOutcome where
  | value (v : List Char)
  | errCredentials
  | err (e : StoreErr)
deriving DecidableEq

/-- A Go `map[string]int` value: `none` is the nil map (the zero value of
an unallocated `var methods map[string]int`). -/
abbrev GoCountMap := Option (List (List Char × Int))

/-- Go map read `m[k]`: a nil or missing key reads as the zero value. -/
def countMapGet (m : GoCountMap) (k : List Char) : Int :=
  match m with
  | none => 0
  | some l =>
    match l.lookup k with
    | some v => v
    | none => 0

/-- Assignment into an association list. -/
def assocSet : List (List Char × Int) → List Char → Int →
    List (List Char × Int)
  | [], k, v => [(k, v)]
  | (k2, v2) :: rest, k, v =>
    if k2 = k then (k, v) :: rest else (k2, v2) :: assocSet rest k v

/-- Go `m[k] += d`: an assignment to an entry in a nil map panics
(`none`); otherwise the entry is updated in place. -/
def countMapAdd (m : GoCountMap) (k : List Char) (d : Int) :
    Option (List (List Char × Int)) :=
  match m with
  | none => none
  | some l => some (assocSet l k (countMapGet (some l) k + d))

/-- First loop of `updateCreds`: index the already-validated credential
methods with counts. The outer `none` is the nil-map write panic. -/
def indexMethods : GoCountMap → List CredInfo → Option GoCountMap
  | m, [] => some m
  | m, cred :: rest =>
    match countMapAdd m cred.method 1 with
    | none => none
    | some m2 => indexMethods (some m2) rest

/-- Environment of one `updateCreds` call: the required-validator list for
the auth level, the stored validated credentials (GetAllCreds), the
supplied (already normalized) credentials and the Check oracle. -/
structure UpdateCredsEnv where
  requiredValidators : List (List Char)
  storedValidated : Except StoreErr (List CredInfo)
  creds : List CredInfo
  checkOutcome : List Char → List Char → CheckOutcome

/-- Second loop of `updateCreds`: for each supplied credential with a
non-empty response, Check it; a non-empty returned value increments the
method count, an empty one decrements it, ErrCredentials is skipped and a
hard error aborts. The outer `none` is the nil-map write panic. -/
def updateLoop (env : UpdateCredsEnv) : GoCountMap → List CredInfo →
    Option (Except StoreErr GoCountMap)
  | m, [] => some (Except.ok m)
  | m, cred :: rest =>
    if cred.response = [] then updateLoop env m rest
    else
      match env.checkOutcome cred.method cred.response with
      | CheckOutcome.errCredentials => updateLoop env m rest
      | CheckOutcome.err e => some (Except.error e)
      | CheckOutcome.value v =>
        if v ≠ [] then
          match countMapAdd m cred.method 1 with
          | none => none
          | some m2 => updateLoop env (some m2) rest
        else
          match countMapAdd m cred.method (-1) with
          | none => none
          | some m2 => updateLoop env (some m2) rest

/-- The methods whose count is at least one. -/
def validatedMethods : GoCountMap → List (List Char)
  | none => []
  | some l => (l.filter (fun p => 0 < p.2)).map (fun p => p.1)

/-- Model of `updateCreds`. The source declares `var methods map[string]int`
and never allocates it, so the map starts nil and every write to it panics;
the whole call returns `none` on such a panic. Tag persistence is kept
implicit (it does not affect the returned method set). -/
def updateCreds (env : UpdateCredsEnv) :
    Option (Except StoreErr (List (List Char))) :=
  if env.requiredValidators.length = 0 then
    some (Except.error StoreErr.unsupported)
  else if env.creds.length = 0 then some (Except.ok [])
  else
    match env.storedValidated with
    | Except.error e => some (Except.error e)
    | Except.ok stored =>
      match indexMethods none stored with
      | none => none
      | some m1 =>
        match updateLoop env m1 env.creds with
        | none => none
        | some (Except.error e) => some (Except.error e)
        | some (Except.ok m2) => some (Except.ok (validatedMethods m2))

/-! ### Video call state machine: topic currentCall and establishment timer -/

/-- A party of the call: session id, user id, originator flag. -/
structure CallParty where
  sid : Nat
  uid : Nat
  isOriginator : Bool
deriving DecidableEq

/-- Model of `videoCall`: the parties (keyed by session) and the seq id of
the anchoring message. -/
structure VideoCall where
  parties : List CallParty
  seq : Nat
deriving DecidableEq

/-- Call-relevant topic state: the current call, whether the establishment
timer is armed, the topic category and pause flag, and the last message
id. -/
structure TopicCallState where
  currentCall : Option VideoCall
  timerOn : Bool
  isP2P : Bool
  inactive : Bool
  lastID : Nat
deriving DecidableEq

/-- Model of `getCallOriginator`: some party with the originator flag. -/
def getCallOriginator (c : VideoCall) : Option CallParty :=
  c.parties.find? (fun p => p.isOriginator)

/-- Model of `handleCallInvite`'s state effect: rejected with call-busy
while a call exists and with permission-denied on a non-P2P topic;
otherwise the sender is recorded as the sole (originator) party, the call
is anchored at the topic's last message id and the establishment timer is
armed. -/
def handleCallInvite (st : TopicCallState) (sid uid : Nat) : TopicCallState :=
  if st.currentCall.isSome then st
  else if ¬ st.isP2P then st
  else
    { st with
      currentCall := some
        { parties := [{ sid := sid, uid := uid, isOriginator := true }],
          seq := st.lastID },
      timerOn := true }

/-- Model of `maybeEndCallInProgress`'s state effect: a no-op without a
call; otherwise stops the establishment timer, writes the finalizing
replacement message and clears the call. -/
def maybeEndCallInProgress (st : TopicCallState) : TopicCallState :=
  if st.currentCall.isNone then st
  else { st with currentCall := none, timerOn := false }

/-- Model of `terminateCallInProgress`: a no-op without a call; when the
call has no originator (or a zero originator uid) the call is dropped
as is; otherwise a synthesized hangup runs `maybeEndCallInProgress`. -/
def terminateCallInProgress (st : TopicCallState) : TopicCallState :=
  match st.currentCall with
  | none => st
  | some c =>
    match getCallOriginator c with
    | none => { st with currentCall := none }
    | some p =>
      if p.uid = 0 then { st with currentCall := none }
      else maybeEndCallInProgress st

/-- The client call events of `handleCallEvent`. -/
inductive CallEvent where
  | ringing
  | accept
  | offer
  | answer
  | iceCandidate
  | hangUp
  | other
deriving DecidableEq

/-- Model of `handleCallEvent`'s state effects: dropped without a call, on
an inactive topic, on a seq mismatch or for a non-subscriber;
ringing/accept require a single-party call and must come from the callee
(a missing originator terminates the call); accept persists the
replacement message (`saveOk` is saveAndBroadcastMessage succeeding), adds
the callee and stops the timer; metadata events forward without state
change; hang-up ends the call. -/
def handleCallEvent (st : TopicCallState) (sid uid seqId : Nat)
    (ev : CallEvent) (userInTopic : Bool) (saveOk : Bool) : TopicCallState :=
  match st.currentCall with
  | none => st
  | some call =>
    if st.inactive then st
    else if call.seq ≠ seqId then st
    else if ¬ userInTopic then st
    else
      match ev with
      | CallEvent.ringing =>
        if call.parties.length ≠ 1 then st
        else
          match getCallOriginator call with
          | none => terminateCallInProgress st
          | some orig =>
            if orig.sid = sid ∨ orig.uid = uid then st else st
      | CallEvent.accept =>
        if call.parties.length ≠ 1 then st
        else
          match getCallOriginator call with
          | none => terminateCallInProgress st
          | some orig =>
            if orig.sid = sid ∨ orig.uid = uid then st
            else if ¬ saveOk then st
            else
              { st with
                currentCall := some
                  { parties := call.parties ++
                      [{ sid := sid, uid := uid, isOriginator := false }],
                    seq := call.seq },
                timerOn := false }
      | CallEvent.offer => st
      | CallEvent.answer => st
      | CallEvent.iceCandidate => st
      | CallEvent.hangUp => maybeEndCallInProgress st
      | CallEvent.other => st

/-- The call invariant: the establishment timer is armed only while a call
exists, every live call has an originator party, and originator parties
carry a non-zero uid. -/
def callInv (st : TopicCallState) : Prop :=
  (st.currentCall = none → st.timerOn = false) ∧
  (∀ c, st.currentCall = some c →
    (∃ p ∈ c.parties, p.isOriginator = true) ∧
    (∀ p ∈ c.parties, p.isOriginator = true → p.uid ≠ 0))

/-! ### Helper lemmas for the base64 round trip -/

theorem b64v_b64c : ∀ n < 64, b64v (b64c n) = some n := by decide

theorem mapM_b64v_map_b64c (l : List Nat) (h : ∀ x ∈ l, x < 64) :
    (l.map b64c).mapM b64v = some l := by
  induction l with
  | nil => rfl
  | cons a t ih =>
    simp only [List.map_cons, List.mapM_cons]
    rw [b64v_b64c a (h a (List.mem_cons_self a t))]
    rw [ih (fun x hx => h x (List.mem_cons_of_mem a hx))]
    rfl

theorem b64encodeBytes_lt (l : List Nat) (h : ∀ b ∈ l, b < 256) :
    ∀ x ∈ b64encodeBytes l, x < 64 := by
  induction l using b64encodeBytes.induct with
  | case1 b0 b1 b2 rest ih =>
    have h0 := h b0 (by simp)
    have h1 := h b1 (by simp)
    have h2 := h b2 (by simp)
    intro x hx
    simp only [b64encodeBytes, List.mem_cons] at hx
    rcases hx with rfl | rfl | rfl | rfl | hx
    · omega
    · omega
    · omega
    · omega
    · exact ih (fun b hb => h b (by simp [hb])) x hx
  | case2 b0 b1 =>
    have h0 := h b0 (by simp)
    have h1 := h b1 (by simp)
    intro x hx
    simp only [b64encodeBytes, List.mem_cons] at hx
    rcases hx with rfl | rfl | rfl | hx
    · omega
    · omega
    · omega
    · simp at hx
  | case3 b0 =>
    have h0 := h b0 (by simp)
    intro x hx
    simp only [b64encodeBytes, List.mem_cons] at hx
    rcases hx with rfl | rfl | hx
    · omega
    · omega
    · simp at hx
  | case4 => intro x hx; simp [b64encodeBytes] at hx

theorem b64decode_encode (l : List Nat) (h : ∀ b ∈ l, b < 256) :
    b64decodeSextets (b64encodeBytes l) = l := by
  induction l using b64encodeBytes.induct with
  | case1 b0 b1 b2 rest ih =>
    have h0 := h b0 (by simp)
    have h1 := h b1 (by simp)
    have h2 := h b2 (by simp)
    have ih2 := ih (fun b hb => h b (by simp [hb]))
    simp only [b64encodeBytes, b64decodeSextets, ih2, List.cons.injEq, and_true]
    omega
  | case2 b0 b1 =>
    have h0 := h b0 (by simp)
    have h1 := h b1 (by simp)
    simp only [b64encodeBytes, b64decodeSextets, List.cons.injEq, and_true]
    omega
  | case3 b0 =>
    have h0 := h b0 (by simp)
    simp only [b64encodeBytes, b64decodeSextets, List.cons.injEq, and_true]
    omega
  | case4 => rfl

theorem uidBytes_lt (u : Nat) : ∀ b ∈ uidBytes u, b < 256 := by
  intro b hb
  simp only [uidBytes, List.mem_cons] at hb
  rcases hb with rfl | rfl | rfl | rfl | rfl | rfl | rfl | rfl | hb
  · omega
  · omega
  · omega
  · omega
  · omega
  · omega
  · omega
  · omega
  · simp at hb

theorem leUint64_uidBytes (u : Nat) (hu : u < 18446744073709551616) :
    leUint64 (uidBytes u) = u := by
  simp only [uidBytes, leUint64]
  omega

theorem uid_roundtrip (u : Nat) (hu : u < 18446744073709551616) (hnz : u ≠ 0) :
    uidUnmarshalText (uidMarshalText u) = some u := by
  have hlen : (b64encodeBytes (uidBytes u)).length = 11 := by
    simp [uidBytes, b64encodeBytes]
  rw [uidMarshalText, if_neg hnz, uidUnmarshalText]
  rw [if_pos (by simp [hlen])]
  rw [mapM_b64v_map_b64c _ (b64encodeBytes_lt _ (uidBytes_lt u))]
  show some (leUint64 (b64decodeSextets (b64encodeBytes (uidBytes u)))) = some u
  rw [b64decode_encode _ (uidBytes_lt u)]
  rw [leUint64_uidBytes u hu]

theorem p2p_roundtrip_lt (a b : Nat)
    (ha : a < 18446744073709551616) (hb : b < 18446744073709551616)
    (ha0 : a ≠ 0) (hb0 : b ≠ 0) (hab : a < b) :
    parseP2P (p2pName a b) = some (a, b) := by
  have hbytes : ∀ x ∈ uidBytes a ++ uidBytes b, x < 256 := by
    intro x hx
    rcases List.mem_append.mp hx with h | h
    · exact uidBytes_lt a x h
    · exact uidBytes_lt b x h
  have hlen : (b64encodeBytes (uidBytes a ++ uidBytes b)).length = 22 := by
    simp [uidBytes, b64encodeBytes]
  rw [p2pName, if_pos ⟨ha0, hb0⟩, if_pos hab]
  rw [parseP2P]
  rw [if_pos (by simp [hlen])]
  rw [mapM_b64v_map_b64c _ (b64encodeBytes_lt _ hbytes)]
  show some (leUint64 (b64decodeSextets (b64encodeBytes (uidBytes a ++ uidBytes b))),
        leUint64 ((b64decodeSextets (b64encodeBytes (uidBytes a ++ uidBytes b))).drop 8)) =
      some (a, b)
  rw [b64decode_encode _ hbytes]
  simp only [uidBytes, List.cons_append, List.nil_append, leUint64,
    List.drop_succ_cons, List.drop_zero, Option.some.injEq, Prod.mk.injEq]
  constructor <;> omega

theorem p2pName_comm (a b : Nat) : p2pName a b = p2pName b a := by
  simp only [p2pName]
  split_ifs <;> first | rfl | omega

/-- C1: the textual Uid codec round-trips (`parse(format(u)) == u`), strings
of the wrong length (hence with decoded length other than 8) are rejected,
P2P naming is commutative, parses back into the unordered pair, and self-P2P
yields the empty string. -/
theorem c1_uid_codec_p2p (u a b : Nat)
    (hu : u < 18446744073709551616)
    (ha : a < 18446744073709551616) (hb : b < 18446744073709551616)
    (ha0 : a ≠ 0) (hb0 : b ≠ 0) :
    parseUid (uidString u) = u ∧
    (∀ s : List Char, s.length ≠ 11 → uidUnmarshalText s = none) ∧
    p2pName a b = p2pName b a ∧
    (a ≠ b → parseP2P (p2pName a b) = some (min a b, max a b)) ∧
    p2pName a a = [] := by
  refine ⟨?_, ?_, ?_, ?_, ?_⟩
  · by_cases h0 : u = 0
    · subst h0; rfl
    · rw [parseUid, uidString, uid_roundtrip u hu h0]; rfl
  · intro s hs
    rw [uidUnmarshalText, if_neg hs]
  · exact p2pName_comm a b
  · intro hab
    rcases Nat.lt_trichotomy a b with h | h | h
    · rw [Nat.min_eq_left (Nat.le_of_lt h), Nat.max_eq_right (Nat.le_of_lt h)]
      exact p2p_roundtrip_lt a b ha hb ha0 hb0 h
    · exact absurd h hab
    · rw [Nat.min_eq_right (Nat.le_of_lt h), Nat.max_eq_left (Nat.le_of_lt h)]
      rw [p2pName_comm a b]
      exact p2p_roundtrip_lt b a hb ha hb0 ha0 h
  · rw [p2pName]
    by_cases h0 : a = 0
    · simp [h0]
    · rw [if_pos ⟨h0, h0⟩, if_neg (by omega), if_neg (by omega)]

theorem c1_uid_codec_p2p_witness :
    parseUid (uidString 5) = 5 ∧ parseP2P (p2pName 7 3) = some (3, 7) := by
  have h := c1_uid_codec_p2p 5 7 3 (by decide) (by decide) (by decide)
    (by decide) (by decide)
  exact ⟨h.1, by simpa using h.2.2.2.1 (by decide)⟩

/-- C10: the zero Uid marshals to the empty string (not an 11-character
encoding), and `PrefixId` - hence `UserId` and `FndName` - also return the
empty string for it; the 11-character prefixed forms exist only for non-zero
Uids. -/
theorem c10_zero_uid_empty :
    uidMarshalText 0 = [] ∧ uidString 0 = [] ∧
    (∀ pre : List Char, prefixId pre 0 = []) ∧
    userId 0 = [] ∧ fndName 0 = [] ∧
    (∀ u : Nat, u ≠ 0 →
      (uidString u).length = 11 ∧
      userId u = ['u', 's', 'r'] ++ uidString u ∧ (userId u).length = 14 ∧
      fndName u = ['f', 'n', 'd'] ++ uidString u ∧ (fndName u).length = 14) := by
  refine ⟨rfl, rfl, fun pre => rfl, rfl, rfl, fun u hu => ?_⟩
  have hlen : (uidString u).length = 11 := by
    rw [uidString, uidMarshalText, if_neg hu]
    simp [uidBytes, b64encodeBytes]
  refine ⟨hlen, ?_, ?_, ?_, ?_⟩
  · rw [userId, prefixId, if_neg hu]
  · rw [userId, prefixId, if_neg hu]; simp [hlen]
  · rw [fndName, prefixId, if_neg hu]
  · rw [fndName, prefixId, if_neg hu]; simp [hlen]

theorem c10_zero_uid_empty_witness : (uidString 9).length = 11 :=
  (c10_zero_uid_empty.2.2.2.2.2 9 (by decide)).1

/-! ### Helper lemmas for the access mode codec and delta -/

theorem testBit_andNot (a b i : Nat) :
    (andNot a b).testBit i = (a.testBit i && ! b.testBit i) := by
  rw [andNot, Nat.testBit_land, Nat.testBit_xor]
  cases a.testBit i <;> cases b.testBit i <;> rfl

theorem andNot_lor_andNot (a b : Nat) :
    andNot (a ||| andNot b a) (andNot a b) = b := by
  apply Nat.eq_of_testBit_eq
  intro i
  rw [testBit_andNot, Nat.testBit_lor, testBit_andNot, testBit_andNot]
  cases a.testBit i <;> cases b.testBit i <;> rfl

theorem andNot_andNot (m a b : Nat) :
    andNot (andNot m a) b = andNot m (a ||| b) := by
  apply Nat.eq_of_testBit_eq
  intro i
  rw [testBit_andNot, testBit_andNot, testBit_andNot, Nat.testBit_lor]
  cases m.testBit i <;> cases a.testBit i <;> cases b.testBit i <;> rfl

theorem andNot_zero (m : Nat) : andNot m 0 = m := by
  apply Nat.eq_of_testBit_eq
  intro i
  rw [testBit_andNot]
  simp

theorem andNot_self (m : Nat) : andNot m m = 0 := by
  apply Nat.eq_of_testBit_eq
  intro i
  rw [testBit_andNot]
  cases m.testBit i <;> simp

theorem andNot_le (a b : Nat) : andNot a b ≤ a := Nat.and_le_left

theorem andNot_lt (a : Nat) (ha : a < 256) (b : Nat) : andNot a b < 256 :=
  Nat.lt_of_le_of_lt (andNot_le a b) ha

theorem lor_256 : ∀ m < 256, 256 ||| m = 256 + m := by decide

theorem bitsOf_accessString : ∀ x < 256, 0 < x → bitsOf (accessString x) = x := by
  decide

theorem accessString_nonempty : ∀ x < 256, 0 < x → accessString x ≠ [] := by
  decide

theorem accessString_sub : ∀ x < 256, ∀ c ∈ accessString x, 0 < x → c ∈ modeChars := by
  decide

theorem letterBit_modeChars :
    ∀ c ∈ modeChars, (letterBit c).isSome ∧ c ≠ '+' ∧ c ≠ '-' := by decide

theorem deltaApplyLoop_adding (l : List Char) (h : ∀ c ∈ l, c ∈ modeChars) :
    ∀ m rest, deltaApplyLoop m true (l ++ rest) =
      deltaApplyLoop (m ||| bitsOf l) true rest := by
  induction l with
  | nil => intro m rest; simp [bitsOf, Nat.or_zero]
  | cons c t ih =>
    intro m rest
    have hc := h c (List.mem_cons_self c t)
    have hprops := letterBit_modeChars c hc
    obtain ⟨b, hb⟩ := Option.isSome_iff_exists.mp hprops.1
    rw [List.cons_append]
    simp only [deltaApplyLoop, if_neg hprops.2.1, if_neg hprops.2.2, hb]
    rw [if_pos trivial]
    rw [ih (fun x hx => h x (List.mem_cons_of_mem c hx)) (m ||| b) rest]
    rw [bitsOf, hb, Option.getD_some, Nat.or_assoc]

theorem deltaApplyLoop_removing (l : List Char) (h : ∀ c ∈ l, c ∈ modeChars) :
    ∀ m, deltaApplyLoop m false l = andNot m (bitsOf l) := by
  induction l with
  | nil => intro m; simp [deltaApplyLoop, bitsOf, andNot_zero]
  | cons c t ih =>
    intro m
    have hc := h c (List.mem_cons_self c t)
    have hprops := letterBit_modeChars c hc
    obtain ⟨b, hb⟩ := Option.isSome_iff_exists.mp hprops.1
    simp only [deltaApplyLoop, if_neg hprops.2.1, if_neg hprops.2.2, hb]
    rw [if_neg Bool.false_ne_true]
    rw [ih (fun x hx => h x (List.mem_cons_of_mem c hx)) (andNot m b)]
    rw [bitsOf, hb, Option.getD_some, andNot_andNot]

theorem unmarshalLoop_letters (l : List Char) (h : ∀ c ∈ l, c ∈ modeChars) :
    ∀ m0, unmarshalLoop m0 l = some (m0 ||| bitsOf l) := by
  induction l with
  | nil => intro m0; simp [unmarshalLoop, bitsOf, Nat.or_zero]
  | cons c t ih =>
    intro m0
    have hc := h c (List.mem_cons_self c t)
    have hprops := letterBit_modeChars c hc
    obtain ⟨b, hb⟩ := Option.isSome_iff_exists.mp hprops.1
    simp only [unmarshalLoop, hb]
    rw [ih (fun x hx => h x (List.mem_cons_of_mem c hx)) (m0 ||| b)]
    rw [bitsOf, hb, Option.getD_some, Nat.or_assoc]

theorem deltaApplyLoop_nil (m : Nat) (adding : Bool) :
    deltaApplyLoop m adding [] = m := rfl

theorem access_roundtrip (cur m : Nat) (hm : m < 256) :
    accessUnmarshalText cur (accessString m) =
      some (if m = 0 then 0 else 256 + m) := by
  by_cases h0 : m = 0
  · subst h0; rfl
  · have hpos : 0 < m := Nat.pos_of_ne_zero h0
    have hsub : ∀ c ∈ accessString m, c ∈ modeChars :=
      fun c hc => accessString_sub m hm c hc hpos
    have hloop := unmarshalLoop_letters _ hsub modeUnset
    rw [bitsOf_accessString m hm hpos] at hloop
    rw [accessUnmarshalText, hloop]
    show some (if modeUnset ||| m ≠ modeUnset then modeUnset ||| m else cur) =
      some (if m = 0 then 0 else 256 + m)
    rw [if_neg h0]
    simp only [modeUnset]
    rw [lor_256 m hm]
    rw [if_pos (by omega)]

theorem delta_apply_delta (m1 m2 : Nat) (h1 : m1 < 256) (h2 : m2 < 256) :
    deltaApply m1 (accessDelta m1 m2) = m2 := by
  have hA : andNot m2 m1 < 256 := andNot_lt m2 h2 m1
  have hR : andNot m1 m2 < 256 := andNot_lt m1 h1 m2
  have key := andNot_lor_andNot m1 m2
  rw [accessDelta]
  by_cases hA0 : andNot m2 m1 = 0 <;> by_cases hR0 : andNot m1 m2 = 0
  · rw [hA0, hR0] at key ⊢
    rw [Nat.or_zero, andNot_zero] at key
    rw [if_neg (by omega), if_neg (by omega), List.nil_append]
    rw [← key]
    rfl
  · have hRpos : 0 < andNot m1 m2 := Nat.pos_of_ne_zero hR0
    have hRne := accessString_nonempty _ hR hRpos
    have hsubR : ∀ c ∈ accessString (andNot m1 m2), c ∈ modeChars :=
      fun c hc => accessString_sub _ hR c hc hRpos
    rw [hA0, if_neg (by omega), if_pos hRpos, if_pos hRne, List.nil_append]
    rw [deltaApply]
    simp only [deltaApplyLoop]
    rw [if_pos trivial]
    rw [deltaApplyLoop_removing _ hsubR m1, bitsOf_accessString _ hR hRpos]
    rw [hA0, Nat.or_zero] at key
    exact key
  · have hApos : 0 < andNot m2 m1 := Nat.pos_of_ne_zero hA0
    have hAne := accessString_nonempty _ hA hApos
    have hsubA : ∀ c ∈ accessString (andNot m2 m1), c ∈ modeChars :=
      fun c hc => accessString_sub _ hA c hc hApos
    rw [hR0, if_pos hApos, if_pos hAne, if_neg (by omega), List.append_nil]
    rw [deltaApply]
    simp only [deltaApplyLoop]
    rw [if_pos trivial]
    have hstep := deltaApplyLoop_adding _ hsubA m1 []
    rw [List.append_nil, deltaApplyLoop_nil] at hstep
    rw [hstep, bitsOf_accessString _ hA hApos]
    rw [hR0, andNot_zero] at key
    exact key
  · have hApos : 0 < andNot m2 m1 := Nat.pos_of_ne_zero hA0
    have hAne := accessString_nonempty _ hA hApos
    have hsubA : ∀ c ∈ accessString (andNot m2 m1), c ∈ modeChars :=
      fun c hc => accessString_sub _ hA c hc hApos
    have hRpos : 0 < andNot m1 m2 := Nat.pos_of_ne_zero hR0
    have hRne := accessString_nonempty _ hR hRpos
    have hsubR : ∀ c ∈ accessString (andNot m1 m2), c ∈ modeChars :=
      fun c hc => accessString_sub _ hR c hc hRpos
    rw [if_pos hApos, if_pos hAne, if_pos hRpos, if_pos hRne]
    rw [deltaApply, List.cons_append]
    simp only [deltaApplyLoop]
    rw [if_pos trivial]
    rw [deltaApplyLoop_adding _ hsubA m1 _, bitsOf_accessString _ hA hApos]
    simp only [deltaApplyLoop]
    rw [if_pos trivial]
    rw [deltaApplyLoop_removing _ hsubR _, bitsOf_accessString _ hR hRpos]
    exact key

theorem accessDelta_self (x : Nat) : accessDelta x x = [] := by
  rw [accessDelta, andNot_self]
  rw [if_neg (by omega), if_neg (by omega)]
  rfl

/-- C2 (amended): parsing the textual form of an 8-bit mode assigns the mode
with the ModeUnset sentinel bit additionally set (it assigns exactly the
mode only for the empty mode, which serializes as "N"), so the round trip
holds after masking to the low eight bits; applying the textual delta
Delta(m1, m2) to m1 yields m2 for all 8-bit modes; Delta(JRWS, JRW) = "-S",
Delta(JRWS, JRWP) = "+P-S" and Delta(X, X) = "". -/
theorem c2_access_mode_codec_delta (cur m m1 m2 : Nat)
    (hm : m < 256) (h1 : m1 < 256) (h2 : m2 < 256) :
    accessUnmarshalText cur (accessString m) =
      some (if m = 0 then 0 else 256 + m) ∧
    (accessUnmarshalText cur (accessString m)).map (fun r => r % 256) =
      some m ∧
    deltaApply m1 (accessDelta m1 m2) = m2 ∧
    accessDelta 39 7 = ['-', 'S'] ∧
    accessDelta 39 15 = ['+', 'P', '-', 'S'] ∧
    (∀ x : Nat, accessDelta x x = []) ∧
    accessString 0 = ['N'] := by
  refine ⟨access_roundtrip cur m hm, ?_, delta_apply_delta m1 m2 h1 h2,
    by decide, by decide, accessDelta_self, rfl⟩
  rw [access_roundtrip cur m hm]
  by_cases h0 : m = 0
  · subst h0; rfl
  · rw [if_neg h0]
    show some ((256 + m) % 256) = some m
    congr 1
    omega

theorem c2_access_mode_codec_delta_witness :
    accessUnmarshalText 0 (accessString 3) = some 259 ∧
    deltaApply 5 (accessDelta 5 9) = 9 := by
  have h := c2_access_mode_codec_delta 0 3 5 9 (by decide) (by decide) (by decide)
  exact ⟨by simpa using h.1, h.2.2.1⟩

/-- C2 counterexample: the round trip claimed for every mode fails on the
code: parsing the textual form "J" of mode 1 assigns 257 (the ModeUnset
sentinel bit leaks into the receiver), not 1. -/
theorem c2_roundtrip_counterexample :
    accessString 1 = ['J'] ∧
    accessUnmarshalText 0 (accessString 1) = some 257 ∧
    accessUnmarshalText 0 (accessString 1) ≠ some 1 := by decide

theorem valid_char_no_error :
    ∀ c ∈ validModeChars, ¬(letterBit c = none ∧ ¬(c = 'N' ∨ c = 'n')) := by
  decide

theorem invalid_char_props (c : Char) (hc : c ∉ validModeChars) :
    letterBit c = none ∧ ¬(c = 'N' ∨ c = 'n') := by
  constructor
  · rw [letterBit]
    split_ifs with h1 h2 h3 h4 h5 h6 h7 h8
    · rcases h1 with rfl | rfl <;> simp [validModeChars] at hc
    · rcases h2 with rfl | rfl <;> simp [validModeChars] at hc
    · rcases h3 with rfl | rfl <;> simp [validModeChars] at hc
    · rcases h4 with rfl | rfl <;> simp [validModeChars] at hc
    · rcases h5 with rfl | rfl <;> simp [validModeChars] at hc
    · rcases h6 with rfl | rfl <;> simp [validModeChars] at hc
    · rcases h7 with rfl | rfl <;> simp [validModeChars] at hc
    · rcases h8 with rfl | rfl <;> simp [validModeChars] at hc
    · rfl
  · rintro (rfl | rfl) <;> simp [validModeChars] at hc

theorem unmarshalLoop_none_iff (b : List Char) :
    ∀ m0, (unmarshalLoop m0 b = none ↔ ∃ c ∈ b, c ∉ validModeChars) := by
  induction b with
  | nil => intro m0; simp [unmarshalLoop]
  | cons c t ih =>
    intro m0
    by_cases hc : c ∈ validModeChars
    · have hnv := valid_char_no_error c hc
      have step : ∃ m1, unmarshalLoop m0 (c :: t) = unmarshalLoop m1 t := by
        cases hb : letterBit c with
        | some b1 => exact ⟨m0 ||| b1, by simp [unmarshalLoop, hb]⟩
        | none =>
          have hN : c = 'N' ∨ c = 'n' := by tauto
          exact ⟨0, by simp [unmarshalLoop, hb, if_pos hN]⟩
      obtain ⟨m1, hm1⟩ := step
      rw [hm1, ih m1]
      constructor
      · rintro ⟨x, hx, hxv⟩
        exact ⟨x, List.mem_cons_of_mem c hx, hxv⟩
      · rintro ⟨x, hx, hxv⟩
        rcases List.mem_cons.mp hx with rfl | hx2
        · exact absurd hc hxv
        · exact ⟨x, hx2, hxv⟩
    · have hp := invalid_char_props c hc
      simp only [unmarshalLoop, hp.1, if_neg hp.2]
      constructor
      · intro _
        exact ⟨c, List.mem_cons_self c t, hc⟩
      · intro _
        trivial

/-- C9: UnmarshalText leaves the receiver unchanged when the input is empty
(no error) and when the input contains a character outside JRWPASDON in
either case (an error is returned in exactly that case); the receiver is
assigned only when the whole input parses. -/
theorem c9_unmarshal_invalid (cur : Nat) (b : List Char) :
    accessUnmarshalText cur [] = some cur ∧
    (accessUnmarshalText cur b = none ↔ ∃ c ∈ b, c ∉ validModeChars) ∧
    ((b = [] ∨ ∃ c ∈ b, c ∉ validModeChars) →
      accessUnmarshalText cur b = none ∨ accessUnmarshalText cur b = some cur) := by
  have hiff : accessUnmarshalText cur b = none ↔
      unmarshalLoop modeUnset b = none := by
    rw [accessUnmarshalText]
    cases unmarshalLoop modeUnset b <;> simp
  refine ⟨rfl, ?_, ?_⟩
  · rw [hiff]
    exact unmarshalLoop_none_iff b modeUnset
  · rintro (rfl | hinv)
    · right; rfl
    · left
      rw [hiff]
      exact (unmarshalLoop_none_iff b modeUnset).mpr hinv

theorem c9_unmarshal_invalid_witness :
    accessUnmarshalText 7 ['J', 'X'] = none ∧
    accessUnmarshalText 7 [] = some 7 := by
  have h := c9_unmarshal_invalid 7 ['J', 'X']
  exact ⟨h.2.1.mpr ⟨'X', by decide, by decide⟩, h.1⟩

/-! ### Helper lemmas for the user cache invariant -/

theorem cacheInsert_inv (cache : UserCache) (k : Nat) (v : UserCacheEntry)
    (hInv : cacheInv cache) (hv : 0 < v.topics) :
    cacheInv (cacheInsert cache k v) := by
  intro u e he
  simp only [cacheInsert] at he
  by_cases hu : u = k
  · rw [if_pos hu] at he
    cases he
    exact hv
  · rw [if_neg hu] at he
    exact hInv u e he

theorem cacheErase_inv (cache : UserCache) (k : Nat) (hInv : cacheInv cache) :
    cacheInv (cacheErase cache k) := by
  intro u e he
  simp only [cacheErase] at he
  by_cases hu : u = k
  · rw [if_pos hu] at he
    cases he
  · rw [if_neg hu] at he
    exact hInv u e he

theorem unreadUpdater_inv (getU : Nat → Option Int) (cache : UserCache)
    (uid : Nat) (val : Int) (inc : Bool) (hInv : cacheInv cache) :
    ∀ p, unreadUpdater getU cache uid val inc = some p → cacheInv p.1 := by
  intro p h
  cases hc : cache uid with
  | none =>
    simp only [unreadUpdater.eq_def, hc] at h
    exact Option.noConfusion h
  | some uce =>
    simp only [unreadUpdater.eq_def, hc] at h
    have htop : 0 < uce.topics := hInv uid uce hc
    by_cases hneg : uce.unread < 0
    · rw [if_pos hneg] at h
      cases hg : getU uid with
      | none =>
        simp only [hg] at h
        injection h with h1
        subst h1
        exact hInv
      | some count =>
        simp only [hg] at h
        injection h with h1
        subst h1
        exact cacheInsert_inv cache uid _ hInv htop
    · rw [if_neg hneg] at h
      by_cases hi : inc = true
      · rw [if_pos hi] at h
        injection h with h1
        subst h1
        exact cacheInsert_inv cache uid _ hInv htop
      · rw [if_neg hi] at h
        injection h with h1
        subst h1
        exact cacheInsert_inv cache uid _ hInv htop

theorem registerUserCache_inv (cache : UserCache) (uid : Nat) (add : Bool)
    (hInv : cacheInv cache) :
    ∀ c2, registerUserCache cache uid add = some c2 → cacheInv c2 := by
  intro c2 h
  cases hc : cache uid with
  | none =>
    cases add with
    | true =>
      simp only [registerUserCache.eq_def, hc] at h
      injection h with h1
      subst h1
      exact cacheInsert_inv cache uid _ hInv (by decide)
    | false =>
      simp only [registerUserCache.eq_def, hc] at h
      exact Option.noConfusion h
  | some uce =>
    have htop : 0 < uce.topics := hInv uid uce hc
    cases add with
    | true =>
      simp only [registerUserCache.eq_def, hc] at h
      injection h with h1
      subst h1
      exact cacheInsert_inv cache uid _ hInv (Nat.succ_pos uce.topics)
    | false =>
      simp only [registerUserCache.eq_def, hc] at h
      by_cases hgt : uce.topics > 1
      · rw [if_pos hgt] at h
        injection h with h1
        subst h1
        refine cacheInsert_inv cache uid _ hInv ?_
        show 0 < uce.topics - 1
        omega
      · rw [if_neg hgt] at h
        injection h with h1
        subst h1
        exact cacheErase_inv cache uid hInv

theorem registerAll_inv (l : List Nat) :
    ∀ cache add, cacheInv cache →
      ∀ c2, registerAll cache l add = some c2 → cacheInv c2 := by
  induction l with
  | nil =>
    intro cache add hInv c2 h
    injection h with h1
    subst h1
    exact hInv
  | cons uid rest ih =>
    intro cache add hInv c2 h
    rw [registerAll] at h
    cases hr : registerUserCache cache uid add with
    | none => rw [hr] at h; cases h
    | some cmid =>
      rw [hr] at h
      exact ih cmid add (registerUserCache_inv cache uid add hInv cmid hr) c2 h

theorem pushUpdateAll_inv (getU : Nat → Option Int) (l : List Nat) :
    ∀ cache, cacheInv cache →
      ∀ c2, pushUpdateAll getU cache l = some c2 → cacheInv c2 := by
  induction l with
  | nil =>
    intro cache hInv c2 h
    injection h with h1
    subst h1
    exact hInv
  | cons uid rest ih =>
    intro cache hInv c2 h
    rw [pushUpdateAll] at h
    cases hr : unreadUpdater getU cache uid 1 true with
    | none => rw [hr] at h; cases h
    | some p =>
      rw [hr] at h
      exact ih p.1 (unreadUpdater_inv getU cache uid 1 true hInv p hr) c2 h

/-- C5: every update processed by the cache loop preserves the invariant
"entry present ⇔ positive topic count": a membership add creates a missing
entry with unread −1 and count 1 or increments an existing count, a removal
decrements the count and deletes the entry when it reaches zero, and an
unread update or an unregistration for an uncached user panics rather than
creating an entry. -/
theorem c5_cache_invariant (getU : Nat → Option Int) (cache : UserCache)
    (upd : UserUpdateMsg) (hInv : cacheInv cache) (u : Nat)
    (uce : UserCacheEntry) (v : Int) (b : Bool) :
    (∀ cache2, userUpdaterStep getU cache upd = some cache2 →
      cacheInv cache2) ∧
    (cache u = none →
      registerUserCache cache u true =
        some (cacheInsert cache u { unread := -1, topics := 1 })) ∧
    (cache u = some uce →
      registerUserCache cache u true =
        some (cacheInsert cache u
          { unread := uce.unread, topics := uce.topics + 1 })) ∧
    (cache u = some uce → uce.topics = 1 →
      registerUserCache cache u false = some (cacheErase cache u)) ∧
    (cache u = some uce → 1 < uce.topics →
      registerUserCache cache u false =
        some (cacheInsert cache u
          { unread := uce.unread, topics := uce.topics - 1 })) ∧
    (cache u = none → registerUserCache cache u false = none) ∧
    (cache u = none → unreadUpdater getU cache u v b = none) := by
  refine ⟨?_, ?_, ?_, ?_, ?_, ?_, ?_⟩
  · intro cache2 h
    rw [userUpdaterStep] at h
    cases hp : upd.pushRcpt with
    | some targets =>
      rw [hp] at h
      exact pushUpdateAll_inv getU targets cache hInv cache2 h
    | none =>
      rw [hp] at h
      by_cases hl : upd.uidList.length > 0
      · rw [if_pos hl] at h
        exact registerAll_inv upd.uidList cache upd.inc hInv cache2 h
      · rw [if_neg hl] at h
        cases hr : unreadUpdater getU cache upd.uid upd.unread upd.inc with
        | none => rw [hr] at h; cases h
        | some p =>
          rw [hr] at h
          injection h with h1
          subst h1
          exact unreadUpdater_inv getU cache upd.uid upd.unread upd.inc hInv p hr
  · intro hc
    simp only [registerUserCache.eq_def, hc]
  · intro hc
    simp only [registerUserCache.eq_def, hc]
  · intro hc h1
    simp only [registerUserCache.eq_def, hc]
    rw [if_neg (by omega)]
  · intro hc h1
    simp only [registerUserCache.eq_def, hc]
    rw [if_pos h1]
  · intro hc
    simp only [registerUserCache.eq_def, hc]
  · intro hc
    simp only [unreadUpdater.eq_def, hc]

theorem c5_cache_invariant_witness :
    registerUserCache (fun _ => none) 4 true =
      some (cacheInsert (fun _ => none) 4 { unread := -1, topics := 1 }) ∧
    registerUserCache (fun _ => none) 4 false = none := by
  have h := c5_cache_invariant (fun _ => some 0) (fun _ => none)
    { uid := 0, uidList := [], unread := 0, inc := false, pushRcpt := none }
    (fun u e he => by cases he) 4 { unread := 0, topics := 1 } 0 false
  exact ⟨h.2.1 rfl, h.2.2.2.2.2.1 rfl⟩

/-- C6 (amended): when the cached unread count is −1 ("not loaded") the
updater fetches the count via GetUnreadCount and stores the fetched value,
discarding the supplied update; when the fetch fails it returns −1 leaving
the cache unchanged; when the cached count is non-negative the update is
applied directly (delta adds, absolute sets). -/
theorem c6_unread_lazy_load (getU : Nat → Option Int) (cache : UserCache)
    (uid : Nat) (val : Int) (inc : Bool) (uce : UserCacheEntry) (cnt : Int)
    (hc : cache uid = some uce) :
    (uce.unread < 0 → getU uid = some cnt →
      unreadUpdater getU cache uid val inc =
        some (cacheInsert cache uid { unread := cnt, topics := uce.topics },
          cnt)) ∧
    (uce.unread < 0 → getU uid = none →
      unreadUpdater getU cache uid val inc = some (cache, -1)) ∧
    (0 ≤ uce.unread → inc = true →
      unreadUpdater getU cache uid val inc =
        some (cacheInsert cache uid
          { unread := uce.unread + val, topics := uce.topics },
          uce.unread + val)) ∧
    (0 ≤ uce.unread → inc = false →
      unreadUpdater getU cache uid val inc =
        some (cacheInsert cache uid { unread := val, topics := uce.topics },
          val)) := by
  refine ⟨?_, ?_, ?_, ?_⟩
  · intro hneg hg
    simp only [unreadUpdater.eq_def, hc, hg]
    rw [if_pos hneg]
  · intro hneg hg
    simp only [unreadUpdater.eq_def, hc, hg]
    rw [if_pos hneg]
  · intro hpos hi
    simp only [unreadUpdater.eq_def, hc, hi]
    rw [if_neg (by omega)]
    simp
  · intro hpos hi
    simp only [unreadUpdater.eq_def, hc, hi]
    rw [if_neg (by omega)]
    simp

theorem c6_unread_lazy_load_witness :
    unreadUpdater (fun _ => some 5)
      (fun x => if x = 1 then some { unread := 2, topics := 1 } else none)
      1 7 false =
    some (cacheInsert
      (fun x => if x = 1 then some { unread := 2, topics := 1 } else none)
      1 { unread := 7, topics := 1 }, 7) :=
  (c6_unread_lazy_load (fun _ => some 5)
    (fun x => if x = 1 then some { unread := 2, topics := 1 } else none)
    1 7 false { unread := 2, topics := 1 } 5 rfl).2.2.2 (by decide) rfl

/-- C6 counterexample: with a cached unread of −1 and a stored count of 5,
an absolute update to 7 stores the fetched count 5 and returns 5 - the
requested update is discarded after the lazy load, so the claim that the
update is applied after the fetch is false. -/
theorem c6_lazy_load_counterexample :
    (unreadUpdater (fun _ => some 5)
        (fun x => if x = 1 then some { unread := -1, topics := 1 } else none)
        1 7 false).map (fun p => (p.2, p.1 1)) =
      some (5, some { unread := 5, topics := 1 }) ∧
    (unreadUpdater (fun _ => some 5)
        (fun x => if x = 1 then some { unread := -1, topics := 1 } else none)
        1 7 false).map (fun p => (p.2, p.1 1)) ≠
      some (7, some { unread := 7, topics := 1 }) := by
  constructor
  · rfl
  · intro h
    rw [show (unreadUpdater (fun _ => some 5)
        (fun x => if x = 1 then some { unread := -1, topics := 1 } else none)
        1 7 false).map (fun p => (p.2, p.1 1)) =
      some (5, some { unread := 5, topics := 1 }) from rfl] at h
    exact absurd h (by decide)

/-- C3: whenever account creation fails after the user row was persisted
(adding the auth record, the required-credential count check, or saving and
validating credentials), the compensating Users.Delete(uid, false) runs, no
user row remains on return, and the reply is the decoded store error. -/
theorem c3_create_user_compensation (env : CreateEnv)
    (hp : (replyCreateUser env).persisted = true)
    (hf : (replyCreateUser env).ok = false) :
    (replyCreateUser env).compensated = true ∧
    (replyCreateUser env).userRowRemains = false ∧
    ∃ e, (replyCreateUser env).reply = CreateReply.decodeStoreError e := by
  obtain ⟨login, sauth, known, uerr, rtags, perr, cerr, aerr, req, cc, acerr⟩ :=
    env
  simp only [replyCreateUser] at hp hf ⊢
  cases login <;> cases sauth <;> cases known <;> cases uerr <;> cases rtags <;>
    cases perr <;> cases cerr <;> cases aerr <;> cases acerr <;>
    by_cases hcc : cc < req <;>
    simp_all
  all_goals rw [if_neg (by omega)]
  all_goals simp

theorem c3_create_user_compensation_witness :
    (replyCreateUser
        { loginOnCreate := false, sessionAuthenticated := false,
          schemeKnown := true, uniqueErr := none, hasRestrictedTags := false,
          precheckErr := none, createErr := none,
          addRecordErr := some StoreErr.internal, requiredCreds := 0,
          credsCount := 0, addCredsErr := none }).compensated = true ∧
    (replyCreateUser
        { loginOnCreate := false, sessionAuthenticated := false,
          schemeKnown := true, uniqueErr := none, hasRestrictedTags := false,
          precheckErr := none, createErr := none,
          addRecordErr := some StoreErr.internal, requiredCreds := 0,
          credsCount := 0, addCredsErr := none }).userRowRemains = false ∧
    ∃ e, (replyCreateUser
        { loginOnCreate := false, sessionAuthenticated := false,
          schemeKnown := true, uniqueErr := none, hasRestrictedTags := false,
          precheckErr := none, createErr := none,
          addRecordErr := some StoreErr.internal, requiredCreds := 0,
          credsCount := 0, addCredsErr := none }).reply =
      CreateReply.decodeStoreError e :=
  c3_create_user_compensation _ (by decide) (by decide)

/-- C8 (amended): on successful verification the tel Check returns the
stored credential value together with the ConfirmCred outcome (confirming
the credential); when the previously-requested credential has been removed
it returns an empty value with an ErrNotFound error (whether the store
reports the absence as an error or as a nil credential), not an error-free
empty value. -/
theorem c8_tel_check (v : TelValidator) (st : TelStore) (resp : List Char)
    (cred : TelCred) :
    (st.activeCredErr = none → st.activeCred = some cred →
      cred.retries ≤ v.maxRetries → resp ≠ [] → cred.resp = resp →
      telCheck v st resp = (cred.value, st.confirmCredErr)) ∧
    (st.activeCredErr = none → st.activeCred = none →
      telCheck v st resp = ([], some StoreErr.notFound)) ∧
    (st.activeCredErr = some StoreErr.notFound →
      telCheck v st resp = ([], some StoreErr.notFound)) := by
  refine ⟨?_, ?_, ?_⟩
  · intro h1 h2 h3 h4 h5
    simp only [telCheck.eq_def, h1, h2]
    rw [if_neg (by omega), if_neg h4, if_pos (Or.inl h5)]
  · intro h1 h2
    simp only [telCheck.eq_def, h1, h2]
  · intro h1
    simp only [telCheck.eq_def, h1]

theorem c8_tel_check_witness :
    telCheck { debugResponse := ['9'], maxRetries := 10 }
      { activeCredErr := none,
        activeCred := some { value := ['5'], resp := ['1'], retries := 0 },
        confirmCredErr := none } ['1'] = (['5'], none) :=
  (c8_tel_check { debugResponse := ['9'], maxRetries := 10 }
    { activeCredErr := none,
      activeCred := some { value := ['5'], resp := ['1'], retries := 0 },
      confirmCredErr := none } ['1']
    { value := ['5'], resp := ['1'], retries := 0 }).1
    rfl rfl (by decide) (by decide) rfl

/-- C8 counterexample: with no active credential the tel Check returns an
ErrNotFound error, so the claim that it returns an empty value with no
error in that case is false. -/
theorem c8_tel_check_counterexample :
    telCheck { debugResponse := ['9'], maxRetries := 10 }
      { activeCredErr := none, activeCred := none, confirmCredErr := none }
      ['1'] = ([], some StoreErr.notFound) ∧
    (telCheck { debugResponse := ['9'], maxRetries := 10 }
      { activeCredErr := none, activeCred := none, confirmCredErr := none }
      ['1']).2 ≠ none := by decide

/-- C7: the claimed counting behavior is the intended one, but the source
never allocates its method-count map (`var methods map[string]int`), so the
first write to it panics: with one stored validated credential the call
panics in the indexing loop, and with none stored a successful validation
panics in the update loop, instead of returning the set of methods with
positive count. -/
theorem c7_update_creds_nil_map_panic :
    updateCreds
      { requiredValidators := [['e']],
        storedValidated := Except.ok [{ method := ['e'], response := [] }],
        creds := [{ method := ['e'], response := ['1'] }],
        checkOutcome := fun _ _ => CheckOutcome.value ['v'] } = none ∧
    updateCreds
      { requiredValidators := [['e']],
        storedValidated := Except.ok [],
        creds := [{ method := ['e'], response := ['1'] }],
        checkOutcome := fun _ _ => CheckOutcome.value ['v'] } = none := by
  constructor <;> rfl

/-! ### Helper lemmas for the video call state machine -/

theorem maybeEnd_clears (st : TopicCallState) (hInv : callInv st) :
    (maybeEndCallInProgress st).currentCall = none ∧
    (maybeEndCallInProgress st).timerOn = false := by
  rw [maybeEndCallInProgress]
  by_cases hc : st.currentCall.isNone
  · rw [if_pos hc]
    have hnone : st.currentCall = none := Option.isNone_iff_eq_none.mp hc
    exact ⟨hnone, hInv.1 hnone⟩
  · rw [if_neg hc]
    exact ⟨rfl, rfl⟩

theorem callInv_maybeEnd (st : TopicCallState) (hInv : callInv st) :
    callInv (maybeEndCallInProgress st) := by
  have h := maybeEnd_clears st hInv
  refine ⟨fun _ => h.2, ?_⟩
  intro c hc2
  rw [h.1] at hc2
  exact Option.noConfusion hc2

theorem terminate_clears (st : TopicCallState) (hInv : callInv st) :
    (terminateCallInProgress st).currentCall = none ∧
    (terminateCallInProgress st).timerOn = false := by
  cases hc : st.currentCall with
  | none =>
    have hred : terminateCallInProgress st = st := by
      simp only [terminateCallInProgress.eq_def, hc]
    rw [hred]
    exact ⟨hc, hInv.1 hc⟩
  | some c =>
    obtain ⟨⟨p, hp, hflag⟩, hall⟩ := hInv.2 c hc
    have hfind : (getCallOriginator c).isSome := by
      rw [getCallOriginator, List.find?_isSome]
      exact ⟨p, hp, hflag⟩
    obtain ⟨q, hgq⟩ := Option.isSome_iff_exists.mp hfind
    have hq2 := hgq
    rw [getCallOriginator] at hq2
    have hqflag : q.isOriginator = true := List.find?_some hq2
    have hqmem : q ∈ c.parties := List.mem_of_find?_eq_some hq2
    have hquid : q.uid ≠ 0 := hall q hqmem hqflag
    have hred : terminateCallInProgress st = maybeEndCallInProgress st := by
      simp only [terminateCallInProgress.eq_def, hc, hgq]
      rw [if_neg hquid]
    rw [hred]
    exact maybeEnd_clears st hInv

theorem callInv_terminate (st : TopicCallState) (hInv : callInv st) :
    callInv (terminateCallInProgress st) := by
  have h := terminate_clears st hInv
  refine ⟨fun _ => h.2, ?_⟩
  intro c hc2
  rw [h.1] at hc2
  exact Option.noConfusion hc2

theorem callInv_invite (st : TopicCallState) (hInv : callInv st)
    (sid uid : Nat) (huid : uid ≠ 0) :
    callInv (handleCallInvite st sid uid) := by
  rw [handleCallInvite]
  by_cases h1 : st.currentCall.isSome
  · rw [if_pos h1]
    exact hInv
  · rw [if_neg h1]
    by_cases h2 : ¬ st.isP2P = true
    · rw [if_pos h2]
      exact hInv
    · rw [if_neg h2]
      constructor
      · intro hn
        exact Option.noConfusion hn
      · intro c hcall
        injection hcall with h3
        subst h3
        constructor
        · exact ⟨_, List.mem_cons_self _ _, rfl⟩
        · intro p hp hflag
          rw [List.mem_singleton] at hp
          subst hp
          exact huid

theorem callInv_event (st : TopicCallState) (hInv : callInv st)
    (sid uid seqId : Nat) (ev : CallEvent) (uit saveOk : Bool) :
    callInv (handleCallEvent st sid uid seqId ev uit saveOk) := by
  cases hc : st.currentCall with
  | none =>
    have hred : handleCallEvent st sid uid seqId ev uit saveOk = st := by
      simp only [handleCallEvent.eq_def, hc]
    rw [hred]
    exact hInv
  | some call =>
    simp only [handleCallEvent.eq_def, hc]
    repeat' split
    all_goals try exact hInv
    all_goals try exact callInv_terminate st hInv
    all_goals try exact callInv_maybeEnd st hInv
    all_goals
      constructor
      · intro hn
        exact Option.noConfusion hn
      · intro c2 hc2
        injection hc2 with h3
        subst h3
        obtain ⟨⟨p, hp, hflag⟩, hall⟩ := hInv.2 call hc
        constructor
        · exact ⟨p, List.mem_append_left _ hp, hflag⟩
        · intro q hq hqflag
          rcases List.mem_append.mp hq with hq1 | hq2
          · exact hall q hq1 hqflag
          · rw [List.mem_singleton] at hq2
            subst hq2
            simp at hqflag

/-- C4: per topic at most one video call exists at a time (an invite while
a call is live answers busy and leaves the call untouched), and after
maybeEndCallInProgress or terminateCallInProgress runs to completion,
currentCall is nil and the establishment timer has been stopped; the call
invariant this relies on is preserved by every call transition. -/
theorem c4_call_teardown (st : TopicCallState) (hInv : callInv st)
    (c : VideoCall) (sid uid seqId : Nat) (huid : uid ≠ 0)
    (ev : CallEvent) (uit saveOk : Bool) :
    (maybeEndCallInProgress st).currentCall = none ∧
    (maybeEndCallInProgress st).timerOn = false ∧
    (terminateCallInProgress st).currentCall = none ∧
    (terminateCallInProgress st).timerOn = false ∧
    (st.currentCall = some c → handleCallInvite st sid uid = st) ∧
    callInv (handleCallInvite st sid uid) ∧
    callInv (handleCallEvent st sid uid seqId ev uit saveOk) ∧
    callInv (maybeEndCallInProgress st) ∧
    callInv (terminateCallInProgress st) := by
  have hme := maybeEnd_clears st hInv
  have hte := terminate_clears st hInv
  refine ⟨hme.1, hme.2, hte.1, hte.2, ?_, callInv_invite st hInv sid uid huid,
    callInv_event st hInv sid uid seqId ev uit saveOk,
    callInv_maybeEnd st hInv, callInv_terminate st hInv⟩
  intro hcall
  rw [handleCallInvite, if_pos (by rw [hcall]; rfl)]

theorem c4_call_teardown_witness :
    (maybeEndCallInProgress
      { currentCall := none, timerOn := false, isP2P := true,
        inactive := false, lastID := 3 }).currentCall = none :=
  (c4_call_teardown
    { currentCall := none, timerOn := false, isP2P := true,
      inactive := false, lastID := 3 }
    ⟨fun _ => rfl, fun c2 hc2 => Option.noConfusion hc2⟩
    { parties := [], seq := 0 } 1 2 3 (by decide) CallEvent.hangUp true
    true).1
